import Mathlib

/-!
Shallow embedding of the 2048 game engine of this repository
(`src/utils/GameLogic.js`) and of the transition planner of the home screen
(`src/app/(tabs)/index.js`, functions `computeMergeGroups` / `computeAllMoves`),
together with theorems settling the frozen claims about them.

JavaScript dynamic behaviour is made explicit:
* a board cell is `null`, the number `0`, or a tile record;
* `updateTilePositions` can return the boolean `false` (the stray
  `return false;` inside its loop), modelled as `Option.none`;
* a thrown `TypeError` escaping `move` / `checkGameOver` is modelled by
  returning `Option.none` from those functions.
-/

/-- A tile record as built by `GameLogic.js`:
`{ value, row, col, tileId }` (`tileId` is a string `'t_' + nanoid()`). -/
structure Tile where
  value : Nat
  row : Nat
  col : Nat
  tileId : String
deriving DecidableEq, Repr

/-- A board cell: JavaScript `null`, the number `0`, or a tile record.
The engine's own boards only ever hold `null` or tiles, but
`getEmptyPositions` and `moveRowLeft` explicitly test for `0` as well. -/
inductive Cell where
  | null : Cell
  | zero : Cell
  | tile : Tile → Cell
deriving DecidableEq, Repr

/-- A board is a list of rows of cells (the JS 4x4 array of arrays). -/
abbrev Board := List (List Cell)

/-- A well-formed board: exactly 4 rows, each of exactly 4 cells. -/
def WellFormed (b : Board) : Prop :=
  b.length = 4 ∧ ∀ r ∈ b, r.length = 4

instance (b : Board) : Decidable (WellFormed b) := by
  unfold WellFormed; infer_instance

/-- The four input directions accepted by `move`. -/
inductive Direction where
  | left : Direction
  | right : Direction
  | up : Direction
  | down : Direction
deriving DecidableEq, Repr

/-- Reading `board[r][c]`; out-of-range reads default to `null`
(well-formed boards never read out of range). -/
def getCell (b : Board) (r c : Nat) : Cell :=
  (b.getD r []).getD c Cell.null

/-- Writing `board[r][c] = x` on a copied board. -/
def setCell (b : Board) (r c : Nat) (x : Cell) : Board :=
  b.set r ((b.getD r []).set c x)

/-- The emptiness test of `getEmptyPositions`:
`board[row][col] === null || board[row][col] === 0`. -/
def isEmptyCellJS : Cell → Bool
  | Cell.null => true
  | Cell.zero => true
  | Cell.tile _ => false

/-- `getEmptyPositions` (GameLogic.js lines 17-27): row-major list of the
positions whose cell is `null` or the number `0`. -/
def getEmptyPositions (b : Board) : List (Nat × Nat) :=
  (List.range 4).flatMap fun r =>
    ((List.range 4).filter fun c => isEmptyCellJS (getCell b r c)).map fun c => (r, c)

/-- `addRandomTile` (GameLogic.js lines 30-45).  The two `Math.random()`
draws are explicit parameters: `draw` stands for the uniformly random index
`Math.floor(Math.random() * emptyPositions.length)` (always in range, here
encoded by reducing an arbitrary natural draw modulo the length), `isTwo`
for the value draw `Math.random() < 0.9`, and `freshId` for `nanoid()`. -/
def addRandomTile (b : Board) (draw : Nat) (isTwo : Bool) (freshId : String) : Board :=
  let empty := getEmptyPositions b
  if empty.length = 0 then b
  else
    let pos := empty.getD (draw % empty.length) (0, 0)
    let v : Nat := if isTwo then 2 else 4
    setCell b pos.1 pos.2
      (Cell.tile { value := v, row := pos.1, col := pos.2, tileId := "t_" ++ freshId })

/-- `some t` when the cell passes the filter
`tile !== null && tile !== 0` of `moveRowLeft`, i.e. is a tile record. -/
def isTileCell : Cell → Option Tile
  | Cell.tile t => some t
  | _ => none

/-- The merge scan of `moveRowLeft` (lines 62-73): scan the compacted tiles
left to right; on an adjacent equal-valued pair, replace the first tile by a
copy with doubled value (same `tileId`, `row`, `col`), add that doubled
value to the score, and skip the consumed tile. -/
def mergeTiles : List Tile → List Tile × Nat
  | t1 :: t2 :: rest =>
    if t1.value = t2.value then
      let merged : Tile := { t1 with value := t1.value * 2 }
      let r := mergeTiles rest
      (merged :: r.1, merged.value + r.2)
    else
      let r := mergeTiles (t2 :: rest)
      (t1 :: r.1, r.2)
  | l => (l, 0)

/-- Result record of `moveRowLeft`. -/
structure RowResult where
  row : List Cell
  score : Nat
deriving DecidableEq, Repr

/-- `moveRowLeft` (GameLogic.js lines 56-82): drop `null` and `0` cells,
merge adjacent equal pairs once per scan position, re-compact, pad with
`null` to length 4. -/
def moveRowLeft (row : List Cell) : RowResult :=
  let filtered := row.filterMap isTileCell
  let m := mergeTiles filtered
  { row := m.1.map Cell.tile ++ List.replicate (4 - m.1.length) Cell.null
    score := m.2 }

/-- `transpose` (lines 85-87), for 4-column boards. -/
def transpose (b : Board) : Board :=
  (List.range 4).map fun c => b.map fun row => row.getD c Cell.null

/-- `reverseRows` (lines 90-92). -/
def reverseRows (b : Board) : Board :=
  b.map List.reverse

/-- The `.value` read performed by `boardsEqual` on a non-null cell:
a tile yields its number, the number `0` yields JS `undefined` (`none`). -/
def jsValueOf : Cell → Option Nat
  | Cell.tile t => some t.value
  | _ => none

/-- One position comparison of `boardsEqual` (lines 98-103): both `null` is
equal, `null` against anything else is unequal, and otherwise the two
`.value` reads are compared (`undefined !== undefined` is false, so two `0`
cells compare equal). -/
def cellEqJS (c1 c2 : Cell) : Bool :=
  match c1, c2 with
  | Cell.null, Cell.null => true
  | Cell.null, _ => false
  | _, Cell.null => false
  | a, b => jsValueOf a == jsValueOf b

/-- `boardsEqual` (lines 95-107): all 16 positions compare equal. -/
def boardsEqual (b1 b2 : Board) : Bool :=
  (List.range 4).all fun r =>
    (List.range 4).all fun c => cellEqJS (getCell b1 r c) (getCell b2 r c)

/-- `updateTilePositions` (lines 110-125) as written in the source: the loop
body ends in a stray `return false;`, so the function returns the boolean
`false` (modelled as `none`) as soon as any of the 16 scanned cells is
truthy (a tile record; `null` and `0` are falsy).  Only when the board holds
no tile at all does it reach `return newBoard` and yield the (copied,
unchanged) board. -/
def updateTilePositions (b : Board) : Option Board :=
  if (List.range 4).any (fun r => (List.range 4).any fun c =>
      match getCell b r c with
      | Cell.tile _ => true
      | _ => false) then
    none
  else
    some b

/-- The per-direction slide pipeline of `move` (lines 132-175): normalize
with `reverseRows` / `transpose`, run `moveRowLeft` on the four rows summing
the scores, and invert the normalization. -/
def slideRows (b : Board) : Board × Nat :=
  let rs := (List.range 4).map fun i => moveRowLeft (b.getD i [])
  (rs.map RowResult.row, (rs.map RowResult.score).sum)

/-- The direction dispatch of `move`. -/
def slide (b : Board) : Direction → Board × Nat
  | Direction.left => slideRows b
  | Direction.right =>
    let p := slideRows (reverseRows b)
    (reverseRows p.1, p.2)
  | Direction.up =>
    let p := slideRows (transpose b)
    (transpose p.1, p.2)
  | Direction.down =>
    let p := slideRows (reverseRows (transpose b))
    (transpose (reverseRows p.1), p.2)

/-- The record returned by a non-throwing call to `move`. -/
structure MoveResult where
  board : Board
  score : Nat
  isValidMove : Bool
deriving DecidableEq, Repr

/-- `move` (GameLogic.js lines 128-188).  `none` models a thrown
`TypeError`: when `updateTilePositions` returns `false`, `move` goes on to
evaluate `boardsEqual(board, false)`, whose read `false[0][0]` throws. -/
def move (b : Board) (d : Direction) : Option MoveResult :=
  let p := slide b d
  match updateTilePositions p.1 with
  | none => none
  | some nb =>
    some { board := nb, score := p.2, isValidMove := !(boardsEqual b nb) }

/-- `checkWin` (lines 191-200): some cell is truthy with `.value === 2048`
(the number `0` is falsy, so only tiles are tested). -/
def checkWin (b : Board) : Bool :=
  (List.range 4).any fun r =>
    (List.range 4).any fun c =>
      match getCell b r c with
      | Cell.tile t => t.value == 2048
      | _ => false

/-- The direction loop of `checkGameOver` (lines 210-216): invoke `move`
for each direction in order; a thrown `TypeError` propagates (`none`); a
valid move yields `false`; an exhausted loop yields `true`. -/
def checkGameOverLoop (b : Board) : List Direction → Option Bool
  | [] => some true
  | d :: ds =>
    match move b d with
    | none => none
    | some r => if r.isValidMove then some false else checkGameOverLoop b ds

/-- `checkGameOver` (lines 203-219). -/
def checkGameOver (b : Board) : Option Bool :=
  if 0 < (getEmptyPositions b).length then some false
  else checkGameOverLoop b
    [Direction.left, Direction.right, Direction.up, Direction.down]

/-!
The transition planner of `src/app/(tabs)/index.js` (first home-screen
variant): `computeMergeGroups` (lines 145-218) and `computeAllMoves`
(lines 221-279).  Both receive the pre-move board, whose occupied cells are
the tile records built by `GameLogic.js`.
-/

/-- A planner line element `{ v, r, c }` holding the raw cell value. -/
structure PCell where
  v : Cell
  r : Nat
  c : Nat
deriving DecidableEq, Repr

/-- JS strict equality `===` between two planner cell values.  `null` and
`0` are primitives and compare by value; tile records are objects and
compare by reference, and every tile object stored on a board built by this
app is a fresh allocation (object spread or literal), so two occupied cells
are never the same reference and their comparison is `false`. -/
def jsStrictEqCell : Cell → Cell → Bool
  | Cell.null, Cell.null => true
  | Cell.zero, Cell.zero => true
  | _, _ => false

/-- JS multiplication `v * 2` on a raw cell value (`null * 2` is `0`,
`0 * 2` is `0`, and `tileObject * 2` is `NaN`, modelled as `none`). -/
def cellTimes2 : Cell → Option Nat
  | Cell.null => some 0
  | Cell.zero => some 0
  | Cell.tile _ => none

/-- Whether a planner cell value is JS `null`. -/
def isNullCell : Cell → Bool
  | Cell.null => true
  | _ => false

/-- A merge instruction of `computeMergeGroups`.  `pre` (the collision
point) is an integer pair because `getPreMergePos` can step outside the
grid. -/
structure MergeGroup where
  fromA : Nat × Nat
  fromB : Nat × Nat
  dest : Nat × Nat
  pre : Int × Int
  valueNew : Option Nat
deriving DecidableEq, Repr

/-- `getPreMergePos` (index.js lines 149-157). -/
def getPreMergePos (dest : Nat × Nat) : Direction → Int × Int
  | Direction.left => ((dest.1 : Int), (dest.2 : Int) + 1)
  | Direction.right => ((dest.1 : Int), (dest.2 : Int) - 1)
  | Direction.up => ((dest.1 : Int) + 1, (dest.2 : Int))
  | Direction.down => ((dest.1 : Int) - 1, (dest.2 : Int))

/-- The `while` loop of `computeMergeGroups`'s `processLine` (lines
164-194), over the already-filtered non-empty cells, carrying `destIndex`. -/
def processMergeLine (dir : Direction) (isRow : Bool) (fixedIndex : Nat) :
    List PCell → Nat → List MergeGroup
  | x :: y :: rest, destIndex =>
    if jsStrictEqCell x.v y.v then
      let dest : Nat × Nat :=
        if isRow then
          if dir = Direction.left then (fixedIndex, destIndex)
          else (fixedIndex, 3 - destIndex)
        else
          if dir = Direction.up then (destIndex, fixedIndex)
          else (3 - destIndex, fixedIndex)
      { fromA := (x.r, x.c), fromB := (y.r, y.c), dest := dest,
        pre := getPreMergePos dest dir, valueNew := cellTimes2 x.v }
        :: processMergeLine dir isRow fixedIndex rest (destIndex + 1)
    else
      processMergeLine dir isRow fixedIndex (y :: rest) (destIndex + 1)
  | _, _ => []

/-- The line decomposition shared by both planner passes: the four lines of
`{ v, r, c }` records walked in the direction of travel (lines 197-215 and
258-276). -/
def plannerLines (b : Board) (dir : Direction) : List (Nat × List PCell) :=
  match dir with
  | Direction.left | Direction.right =>
    (List.range 4).map fun r =>
      (r, (List.range 4).map fun i =>
        let cc := if dir = Direction.left then i else 3 - i
        { v := getCell b r cc, r := r, c := cc })
  | Direction.up | Direction.down =>
    (List.range 4).map fun cFixed =>
      (cFixed, (List.range 4).map fun i =>
        let rr := if dir = Direction.up then i else 3 - i
        { v := getCell b rr cFixed, r := rr, c := cFixed })

/-- Whether the planner treats the direction's lines as rows. -/
def dirIsRow : Direction → Bool
  | Direction.left | Direction.right => true
  | Direction.up | Direction.down => false

/-- `computeMergeGroups` (index.js lines 145-218). -/
def computeMergeGroups (prevBoard : Board) (dir : Direction) : List MergeGroup :=
  (plannerLines prevBoard dir).flatMap fun line =>
    processMergeLine dir (dirIsRow dir) line.1
      (line.2.filter fun x => !(isNullCell x.v)) 0

/-- A slide instruction of `computeAllMoves` (`value` carries the raw cell
content `src.v`). -/
structure MoveEntry where
  fromPos : Nat × Nat
  toPos : Nat × Nat
  value : Cell
deriving DecidableEq, Repr

/-- The target-grouping `while` loop of `computeAllMoves`'s `processLine`
(lines 230-238): adjacent strictly-equal pairs become one two-source group,
everything else a singleton group. -/
def groupTargets : List PCell → List (List PCell)
  | x :: y :: rest =>
    if jsStrictEqCell x.v y.v then [x, y] :: groupTargets rest
    else [x] :: groupTargets (y :: rest)
  | [x] => [[x]]
  | [] => []

/-- `computeAllMoves` (index.js lines 221-279).  The `nextBoard` argument is
accepted but never read by the source.  Entries whose `from` equals `to`
are filtered out at the end (line 278). -/
def computeAllMoves (prevBoard : Board) (nextBoard : Board) (dir : Direction) :
    List MoveEntry :=
  let _ := nextBoard
  let entries := (plannerLines prevBoard dir).flatMap fun line =>
    let groups := groupTargets (line.2.filter fun x => !(isNullCell x.v))
    groups.enum.flatMap fun g =>
      let destIndex :=
        if (dirIsRow dir && dir = Direction.right)
            || (!(dirIsRow dir) && dir = Direction.down) then 3 - g.1
        else g.1
      g.2.map fun src =>
        { fromPos := (src.r, src.c)
          toPos := if dirIsRow dir then (line.1, destIndex) else (destIndex, line.1)
          value := src.v }
  entries.filter fun m => !(m.fromPos = m.toPos : Bool)

/-!  Concrete boards used to evaluate the engine at specific inputs. -/

/-- Shorthand for a tile cell. -/
def t (v r c : Nat) (id : String) : Cell :=
  Cell.tile { value := v, row := r, col := c, tileId := id }

/-- A row of four `null` cells. -/
def emptyRow : List Cell := [Cell.null, Cell.null, Cell.null, Cell.null]

/-- The all-empty 4x4 board. -/
def emptyBoard : Board := [emptyRow, emptyRow, emptyRow, emptyRow]

/-- A board holding a single tile of value 2 at row 0, column 0. -/
def bSingle : Board :=
  [[t 2 0 0 "a", Cell.null, Cell.null, Cell.null], emptyRow, emptyRow, emptyRow]

/-- A board whose first row is `[2, 4, null, null]`: a `left` move would
change nothing, so the intended result is an invalid move. -/
def bNoOp : Board :=
  [[t 2 0 0 "a", t 4 0 1 "b", Cell.null, Cell.null], emptyRow, emptyRow, emptyRow]

/-- A board whose first row is `[2, 2, null, null]`: a `left` move is
supposed to merge the pair into a 4. -/
def bPair : Board :=
  [[t 2 0 0 "a", t 2 0 1 "b", Cell.null, Cell.null], emptyRow, emptyRow, emptyRow]

/-- A board whose first row is `[2, null, 2, null]`: a `right` move is
supposed to merge the pair. -/
def bGap : Board :=
  [[t 2 0 0 "a", Cell.null, t 2 0 2 "b", Cell.null], emptyRow, emptyRow, emptyRow]

/-- A completely full board in which every horizontally or vertically
adjacent pair of tiles differs in value (the classic 2/4 checkerboard):
the intended `checkGameOver` answer is `true`. -/
def bFull : Board :=
  [[t 2 0 0 "f00", t 4 0 1 "f01", t 2 0 2 "f02", t 4 0 3 "f03"],
   [t 4 1 0 "f10", t 2 1 1 "f11", t 4 1 2 "f12", t 2 1 3 "f13"],
   [t 2 2 0 "f20", t 4 2 1 "f21", t 2 2 2 "f22", t 4 2 3 "f23"],
   [t 4 3 0 "f30", t 2 3 1 "f31", t 4 3 2 "f32", t 2 3 3 "f33"]]

/-- A board whose only tile has value 4096 (strictly above the 2048
threshold). -/
def b4096 : Board :=
  [[t 4096 0 0 "a", Cell.null, Cell.null, Cell.null], emptyRow, emptyRow, emptyRow]

/-- A board whose only tile has value 2048. -/
def b2048 : Board :=
  [[t 2048 0 0 "a", Cell.null, Cell.null, Cell.null], emptyRow, emptyRow, emptyRow]

/-!  Helper lemmas about list reads and writes. -/

theorem getD_set_self {α : Type} (l : List α) (i : Nat) (a d : α) (h : i < l.length) :
    (l.set i a).getD i d = a := by
  rw [List.getD_eq_getElem?_getD, List.getElem?_set_self h]
  rfl

theorem getD_set_of_ne {α : Type} (l : List α) {i j : Nat} (a d : α) (h : i ≠ j) :
    (l.set i a).getD j d = l.getD j d := by
  rw [List.getD_eq_getElem?_getD, List.getElem?_set_ne h, ← List.getD_eq_getElem?_getD]

/-- Membership in `getEmptyPositions`: exactly the in-grid positions whose
cell is `null` or `0`. -/
theorem mem_getEmptyPositions (b : Board) (r c : Nat) :
    (r, c) ∈ getEmptyPositions b ↔
      r < 4 ∧ c < 4 ∧ (getCell b r c = Cell.null ∨ getCell b r c = Cell.zero) := by
  unfold getEmptyPositions
  simp only [List.mem_flatMap, List.mem_map, List.mem_filter, List.mem_range,
    Prod.mk.injEq]
  constructor
  · rintro ⟨r', hr', c', ⟨hc', hcell⟩, rfl, rfl⟩
    refine ⟨hr', hc', ?_⟩
    rcases h : getCell b r' c' with _ | _ | tl
    · exact Or.inl rfl
    · exact Or.inr rfl
    · rw [h] at hcell; simp [isEmptyCellJS] at hcell
  · rintro ⟨hr, hc, hcell⟩
    refine ⟨r, hr, c, ⟨hc, ?_⟩, rfl, rfl⟩
    rcases hcell with h | h <;> rw [h] <;> rfl

/-- `getEmptyPositions` lists each empty position exactly once. -/
theorem getEmptyPositions_nodup (b : Board) : (getEmptyPositions b).Nodup := by
  unfold getEmptyPositions
  rw [List.nodup_flatMap]
  constructor
  · intro r _
    exact ((List.nodup_range 4).filter _).map fun c c' h => congrArg Prod.snd h
  · refine (List.nodup_range 4).imp ?_
    intro r r' hne
    simp only [Function.onFun, List.disjoint_left, List.mem_map, List.mem_filter]
    rintro p ⟨c, _, rfl⟩ ⟨c', _, hp⟩
    exact hne (congrArg Prod.fst hp).symm

/-- A member of the compaction `row.filterMap isTileCell` comes from a tile
cell of the row. -/
theorem tile_mem_of_mem_filterMap {row : List Cell} {u : Tile}
    (h : u ∈ row.filterMap isTileCell) : Cell.tile u ∈ row := by
  rcases List.mem_filterMap.mp h with ⟨c, hc, hcu⟩
  rcases c with _ | _ | tl
  · simp [isTileCell] at hcu
  · simp [isTileCell] at hcu
  · obtain rfl : tl = u := by simpa [isTileCell] using hcu
    exact hc

/-- Every tile produced by the merge scan is an input tile unchanged, or an
input tile with its value doubled (all other fields, in particular the
`tileId`, kept). -/
theorem mergeTiles_mem : ∀ (l : List Tile) (x : Tile), x ∈ (mergeTiles l).1 →
    x ∈ l ∨ ∃ t1, t1 ∈ l ∧ x = { t1 with value := t1.value * 2 }
  | [], x, h => by simp [mergeTiles] at h
  | [t1], x, h => by
    simp only [mergeTiles, List.mem_singleton] at h
    exact Or.inl (by simp [h])
  | t1 :: t2 :: rest, x, h => by
    rw [mergeTiles] at h
    by_cases hv : t1.value = t2.value
    · rw [if_pos hv] at h
      rcases List.mem_cons.mp h with h | h
      · exact Or.inr ⟨t1, List.mem_cons_self .., h⟩
      · rcases mergeTiles_mem rest x h with h1 | ⟨u, hu, hx⟩
        · exact Or.inl (by simp [h1])
        · exact Or.inr ⟨u, by simp [hu], hx⟩
    · rw [if_neg hv] at h
      rcases List.mem_cons.mp h with h | h
      · exact Or.inl (by simp [h])
      · rcases mergeTiles_mem (t2 :: rest) x h with h1 | ⟨u, hu, hx⟩
        · exact Or.inl (List.mem_cons_of_mem t1 h1)
        · exact Or.inr ⟨u, List.mem_cons_of_mem t1 hu, hx⟩

/-- The merge scan conserves the sum of tile values: a merge replaces two
tiles of value `v` with one tile of value `2 * v`. -/
theorem mergeTiles_value_sum : ∀ l : List Tile,
    ((mergeTiles l).1.map Tile.value).sum = (l.map Tile.value).sum
  | [] => rfl
  | [_] => rfl
  | t1 :: t2 :: rest => by
    rw [mergeTiles]
    by_cases hv : t1.value = t2.value
    · rw [if_pos hv]
      simp only [List.map_cons, List.sum_cons, mergeTiles_value_sum rest]
      omega
    · rw [if_neg hv]
      simp only [List.map_cons, List.sum_cons]
      have := mergeTiles_value_sum (t2 :: rest)
      simp only [List.map_cons, List.sum_cons] at this
      omega

/-- Line resolution conserves the sum of tile values (the interesting half
of the conservation property lives in `moveRowLeft`; the outer `move`
pipeline only reorders lines). -/
theorem moveRowLeft_value_sum (row : List Cell) :
    (((moveRowLeft row).row.filterMap isTileCell).map Tile.value).sum
      = ((row.filterMap isTileCell).map Tile.value).sum := by
  unfold moveRowLeft
  rw [List.filterMap_append, List.filterMap_map]
  have h1 : List.filterMap (isTileCell ∘ Cell.tile) (mergeTiles (row.filterMap isTileCell)).1
      = (mergeTiles (row.filterMap isTileCell)).1 := by
    have : isTileCell ∘ Cell.tile = some := by
      funext u; rfl
    rw [this, List.filterMap_some]
  have h2 : List.filterMap isTileCell
      (List.replicate (4 - (mergeTiles (row.filterMap isTileCell)).1.length) Cell.null)
      = [] := by
    apply List.filterMap_eq_nil_iff.mpr
    intro c hc
    rw [List.eq_of_mem_replicate hc]
    rfl
  rw [h1, h2, List.append_nil]
  exact mergeTiles_value_sum _

/-!  Claim theorems. -/

/-- C1: the claim states that `move` is total on well-formed boards and
always returns a record whose board is again a well-formed 4x4 matrix.  The
code violates this: because of the stray `return false;` in
`updateTilePositions`, `move` throws a `TypeError` (modelled by `none`) on
every board that still carries a tile after the slide — here already on a
board holding one single tile.  Only the degenerate all-empty board
completes normally. -/
theorem move_throws_on_single_tile :
    move bSingle Direction.left = none
      ∧ move emptyBoard Direction.left
          = some { board := emptyBoard, score := 0, isValidMove := false } := by
  exact ⟨rfl, rfl⟩

/-- C2: the single-line resolution merges each adjacent equal pair once per
scan position and scores the doubled value: `[2,2,2,2]` resolves to
`[4,4,null,null]` with score 8, `[2,2,2,null]` to `[4,2,null,null]` with
score 4, and `[null,4,2,2]` to `[4,4,null,null]` with score 4, for any tile
identities and positions carried by the cells. -/
theorem moveRowLeft_line_examples (a b c d : String) :
    ((moveRowLeft [t 2 0 0 a, t 2 0 1 b, t 2 0 2 c, t 2 0 3 d]).row.map jsValueOf
        = [some 4, some 4, none, none]
      ∧ (moveRowLeft [t 2 0 0 a, t 2 0 1 b, t 2 0 2 c, t 2 0 3 d]).score = 8)
    ∧ ((moveRowLeft [t 2 0 0 a, t 2 0 1 b, t 2 0 2 c, Cell.null]).row.map jsValueOf
        = [some 4, some 2, none, none]
      ∧ (moveRowLeft [t 2 0 0 a, t 2 0 1 b, t 2 0 2 c, Cell.null]).score = 4)
    ∧ ((moveRowLeft [Cell.null, t 4 0 1 b, t 2 0 2 c, t 2 0 3 d]).row.map jsValueOf
        = [some 4, some 4, none, none]
      ∧ (moveRowLeft [Cell.null, t 4 0 1 b, t 2 0 2 c, t 2 0 3 d]).score = 4) := by
  exact ⟨⟨rfl, rfl⟩, ⟨rfl, rfl⟩, ⟨rfl, rfl⟩⟩

/-- C3: the claim states that `move` reports a validity flag that is true
iff the board changed, and that an invalid move returns the board
unchanged with score 0.  The code instead throws on `bNoOp`, a board on
which a `left` swipe changes nothing and the claim promises the record
`(same board, 0, false)`. -/
theorem move_throws_on_unchanged_board :
    move bNoOp Direction.left = none := by
  exact rfl

/-- C4: the claim states that replaying the transition planner's slide and
merge instructions reproduces the move resolver's board.  On the board
whose first row is `[2,2,null,null]` moved left, the planner emits no merge
group and no slide instruction at all (its `===` comparison of two tile
records is reference equality, hence false), while the resolver does not
return a board in the first place (it throws, `none`) — so no replay of the
plan can reproduce a resolver board. -/
theorem planner_resolver_divergence :
    computeMergeGroups bPair Direction.left = []
      ∧ computeAllMoves bPair bPair Direction.left = []
      ∧ move bPair Direction.left = none := by
  exact ⟨rfl, rfl, rfl⟩

/-- C5: the claim states that `checkGameOver` is false when an empty cell
exists (which the code honours, second conjunct) and decides full boards by
probing the four directions.  On a completely full board the code instead
throws: the first `move` probe hits the `updateTilePositions` bug, so
`checkGameOver` never returns `true` on any full board. -/
theorem checkGameOver_throws_on_full_board :
    checkGameOver bFull = none ∧ checkGameOver bSingle = some false := by
  exact ⟨rfl, rfl⟩

/-- C6 counterexample: the claim states that a tile strictly greater than
2048 also triggers the win check.  The code compares with `=== 2048`, so a
board whose only tile is 4096 reports no win. -/
theorem checkWin_false_on_4096 :
    checkWin b4096 = false := by
  exact rfl

/-- C6 (amended): `checkWin` returns true iff some cell holds a tile whose
value is exactly 2048 — at least 2048 is not enough. -/
theorem checkWin_iff_exact_2048 (b : Board) :
    checkWin b = true ↔
      ∃ r c : Nat, r < 4 ∧ c < 4 ∧ ∃ tl : Tile,
        getCell b r c = Cell.tile tl ∧ tl.value = 2048 := by
  unfold checkWin
  simp only [List.any_eq_true, List.mem_range]
  constructor
  · rintro ⟨r, hr, c, hc, h⟩
    refine ⟨r, c, hr, hc, ?_⟩
    rcases hcell : getCell b r c with _ | _ | tl
    · rw [hcell] at h; simp at h
    · rw [hcell] at h; simp at h
    · rw [hcell] at h
      exact ⟨tl, rfl, by simpa using h⟩
  · rintro ⟨r, c, hr, hc, tl, hcell, hv⟩
    refine ⟨r, hr, c, hc, ?_⟩
    rw [hcell]
    simpa using hv

/-- C6 witness: the amended rule applied to the board whose only tile is
exactly 2048. -/
theorem checkWin_iff_exact_2048_witness :
    checkWin b2048 = true :=
  (checkWin_iff_exact_2048 b2048).mpr
    ⟨0, 0, by decide, by decide,
     { value := 2048, row := 0, col := 0, tileId := "a" }, rfl, rfl⟩

/-- C9: the claim speaks about the board returned by a valid move (sum of
tile values conserved).  On the board whose first row is `[2,null,2,null]`
— a clearly valid `right` move in the intended semantics — `move` throws
instead of returning a board, so there is no returned board whose sum could
be compared.  (The line resolution itself does conserve the value sum, see
`moveRowLeft_value_sum`.) -/
theorem move_throws_on_conservation_input :
    move bGap Direction.right = none := by
  exact rfl

/-- Rewriting a `0` cell to `null` (used to state that the engine treats
the two identically). -/
def zeroToNull : Cell → Cell
  | Cell.zero => Cell.null
  | c => c

/-- C10: a cell holding the number `0` is treated exactly like `null`:
`getEmptyPositions` lists `null` and `0` cells alike as empty (so the
spawner may overwrite a `0` cell), and the compaction inside the line
resolution discards `0` cells just as it discards `null` cells (replacing
every `0` by `null` leaves the resolution's output unchanged). -/
theorem zero_cells_treated_as_empty :
    (∀ (b : Board) (r c : Nat),
        (r, c) ∈ getEmptyPositions b ↔
          r < 4 ∧ c < 4 ∧ (getCell b r c = Cell.null ∨ getCell b r c = Cell.zero))
    ∧ (∀ row : List Cell, moveRowLeft (row.map zeroToNull) = moveRowLeft row) := by
  refine ⟨mem_getEmptyPositions, fun row => ?_⟩
  have h : (row.map zeroToNull).filterMap isTileCell = row.filterMap isTileCell := by
    induction row with
    | nil => rfl
    | cons c cs ih => rcases c with _ | _ | tl <;> simp [zeroToNull, isTileCell, ih]
  unfold moveRowLeft
  rw [h]

/-- C8 counterexample: the claim states that a merge produces a tile with a
fresh identity distinct from both sources.  Merging the pair with
identities `a` and `b` instead yields the tile
`{ value 4, row 0, col 0, tileId a }` — the first source's identity (and
position fields) verbatim, only the value doubled. -/
theorem merged_tile_keeps_first_source_id :
    (moveRowLeft [t 2 0 0 "a", t 2 0 1 "b", Cell.null, Cell.null]).row
      = [t 4 0 0 "a", Cell.null, Cell.null, Cell.null] := by
  exact rfl

/-- C8 (amended): no move ever allocates a fresh tile identity.  Every tile
on a resolved line is either an input tile kept verbatim (a slide keeps the
whole record, identity included) or the first tile of a merged pair with
only its value doubled (identity and position fields kept); the second
source's identity is dropped. -/
theorem moveRowLeft_identity_provenance (row : List Cell) (tl : Tile)
    (h : Cell.tile tl ∈ (moveRowLeft row).row) :
    Cell.tile tl ∈ row
      ∨ ∃ t1 : Tile, Cell.tile t1 ∈ row ∧ tl = { t1 with value := t1.value * 2 } := by
  unfold moveRowLeft at h
  rcases List.mem_append.mp h with h | h
  · rcases List.mem_map.mp h with ⟨u, hu, hE⟩
    obtain rfl : u = tl := by injection hE
    rcases mergeTiles_mem _ _ hu with h1 | ⟨t1, ht1, hx⟩
    · exact Or.inl (tile_mem_of_mem_filterMap h1)
    · exact Or.inr ⟨t1, tile_mem_of_mem_filterMap ht1, hx⟩
  · exact absurd (List.eq_of_mem_replicate h) (by simp)

/-- C8 witness: the amended provenance rule applied to the merged pair
`[2(a), 2(b)]`: the surviving tile `{4, a}` is the doubled copy of the
input tile `{2, a}`. -/
theorem moveRowLeft_identity_provenance_witness :
    (Cell.tile { value := 4, row := 0, col := 0, tileId := "a" }
        ∈ (moveRowLeft [t 2 0 0 "a", t 2 0 1 "b", Cell.null, Cell.null]).row)
    ∧ (Cell.tile { value := 4, row := 0, col := 0, tileId := "a" }
          ∈ [t 2 0 0 "a", t 2 0 1 "b", Cell.null, Cell.null]
        ∨ ∃ t1 : Tile,
            Cell.tile t1 ∈ [t 2 0 0 "a", t 2 0 1 "b", Cell.null, Cell.null]
              ∧ ({ value := 4, row := 0, col := 0, tileId := "a" } : Tile)
                  = { t1 with value := t1.value * 2 }) :=
  ⟨by decide, moveRowLeft_identity_provenance _ _ (by decide)⟩

/-!  Reading a written board cell. -/

theorem getCell_setCell_self (b : Board) (r c : Nat) (x : Cell)
    (hr : r < b.length) (hc : c < (b.getD r []).length) :
    getCell (setCell b r c x) r c = x := by
  unfold getCell setCell
  rw [getD_set_self _ _ _ _ hr, getD_set_self _ _ _ _ hc]

theorem getCell_setCell_of_ne (b : Board) (r0 c0 r c : Nat) (x : Cell)
    (hr0 : r0 < b.length) (h : (r, c) ≠ (r0, c0)) :
    getCell (setCell b r0 c0 x) r c = getCell b r c := by
  unfold getCell setCell
  by_cases hrr : r0 = r
  · subst hrr
    have hcc : c0 ≠ c := by
      intro hc
      exact h (by rw [hc])
    rw [getD_set_self _ _ _ _ hr0, getD_set_of_ne _ _ _ hcc]
  · rw [getD_set_of_ne _ _ _ hrr]

/-- The cell picked by the spawner for a given index draw: the uniform
random index into the list of empty positions. -/
def spawnPos (b : Board) (draw : Nat) : Nat × Nat :=
  (getEmptyPositions b).getD (draw % (getEmptyPositions b).length) (0, 0)

/-- C7: the tile spawner is a safe no-op on a board without empty cells,
and otherwise writes exactly one fresh tile — of value 2 when the value
draw is below 0.9 and 4 otherwise — into the empty cell selected by the
uniform index draw, leaving every other cell unchanged.  The selection is
uniform over the empty cells: the chosen position is the `draw mod n`-th
entry of the duplicate-free list of all empty positions, and every empty
position is selected by some draw. -/
theorem addRandomTile_contract (b : Board) (draw : Nat) (isTwo : Bool) (freshId : String)
    (hwf : WellFormed b) :
    (getEmptyPositions b = [] → addRandomTile b draw isTwo freshId = b)
    ∧ (getEmptyPositions b ≠ [] →
        spawnPos b draw ∈ getEmptyPositions b
        ∧ getCell (addRandomTile b draw isTwo freshId) (spawnPos b draw).1 (spawnPos b draw).2
            = Cell.tile { value := if isTwo then 2 else 4, row := (spawnPos b draw).1,
                          col := (spawnPos b draw).2, tileId := "t_" ++ freshId }
        ∧ (∀ r c : Nat, (r, c) ≠ spawnPos b draw →
            getCell (addRandomTile b draw isTwo freshId) r c = getCell b r c)
        ∧ (∀ q ∈ getEmptyPositions b, ∃ k : Nat, spawnPos b k = q)
        ∧ (getEmptyPositions b).Nodup) := by
  constructor
  · intro hE
    unfold addRandomTile
    rw [if_pos (by rw [hE]; rfl)]
  · intro hne
    have hlen : 0 < (getEmptyPositions b).length := List.length_pos.mpr hne
    have hidx : draw % (getEmptyPositions b).length < (getEmptyPositions b).length :=
      Nat.mod_lt _ hlen
    have hmem : spawnPos b draw ∈ getEmptyPositions b := by
      unfold spawnPos
      rw [List.getD_eq_getElem _ _ hidx]
      exact List.getElem_mem hidx
    have hblen : b.length = 4 := hwf.1
    obtain ⟨hr4, hc4, _⟩ :=
      (mem_getEmptyPositions b (spawnPos b draw).1 (spawnPos b draw).2).mp hmem
    have hunfold : addRandomTile b draw isTwo freshId
        = setCell b (spawnPos b draw).1 (spawnPos b draw).2
            (Cell.tile { value := if isTwo then 2 else 4, row := (spawnPos b draw).1,
                         col := (spawnPos b draw).2, tileId := "t_" ++ freshId }) := by
      unfold addRandomTile spawnPos
      rw [if_neg (by omega)]
    have hrowlen : (b.getD (spawnPos b draw).1 []).length = 4 := by
      rw [List.getD_eq_getElem _ _ (by omega : (spawnPos b draw).1 < b.length)]
      exact hwf.2 _ (List.getElem_mem _)
    refine ⟨hmem, ?_, ?_, ?_, getEmptyPositions_nodup b⟩
    · rw [hunfold]
      exact getCell_setCell_self _ _ _ _ (by omega) (by omega)
    · intro r c hne2
      rw [hunfold]
      exact getCell_setCell_of_ne _ _ _ _ _ _ (by omega) (by simpa using hne2)
    · intro q hq
      obtain ⟨n, hn, hqn⟩ := List.getElem_of_mem hq
      refine ⟨n, ?_⟩
      unfold spawnPos
      rw [Nat.mod_eq_of_lt hn, List.getD_eq_getElem _ _ hn, hqn]

/-- C7 witness: on the full board the spawner is the identity, and on the
single-tile board the drawn position is one of the listed empty cells. -/
theorem addRandomTile_contract_witness :
    addRandomTile bFull 0 true "x" = bFull
    ∧ spawnPos bSingle 3 ∈ getEmptyPositions bSingle :=
  ⟨(addRandomTile_contract bFull 0 true "x" (by decide)).1 (by decide),
   ((addRandomTile_contract bSingle 3 true "x" (by decide)).2 (by decide)).1⟩
